import Mathlib

/-!
Verification of the plug value computation and caching engine of the Gaffer
repository, as described by its specification and pinned by
src/python/GafferTest/ValuePlugTest.py.  The repository ships only the test
suite and thin UI front ends; the engine itself (ValuePlug, Plug, the value
cache) is not under src/, so the definitions below are modelled from the
specification, amended where the in-repository tests pin a behaviour the
specification's words do not cover.
-/

/-- Plug direction: a plug is either an input (`In`) or an output (`Out`)
slot. -/
inductive Direction where
  | In : Direction
  | Out : Direction
deriving DecidableEq

/-- Typed plug values: the tests exercise string, integer and boolean
plugs. -/
inductive Val where
  | str (s : String) : Val
  | int (i : Int) : Val
  | bool (b : Bool) : Val
deriving DecidableEq

/-- A computed result object: a value together with an allocation identity,
so that object identity (`isSame`) and value equality can be told apart, as
the tests do via `isSame` versus `assertEqual`. -/
structure Obj where
  id : Nat
  val : Val
deriving DecidableEq

/-- Object identity, mirroring `IECore.Object.isSame`: two handles denote the
very same allocation. -/
def Obj.isSame (a b : Obj) : Bool := a.id == b.id

theorem Obj.isSame_iff (a b : Obj) : a.isSame b = true ↔ a.id = b.id := by
  simp [Obj.isSame]

/-- Modelled from the spec: the Hash Engine's content hash (missing from
src/).  A hash either summarizes a stored value directly, or records the
computing node's identity discriminator together with the hash of the
dependency its computation logic declares, so two structurally different
computations over equal inputs do not collide.  Injectivity holds by
construction, modelling the spec's collision-freedom requirement. -/
inductive Hash where
  | stored (v : Val) : Hash
  | computed (node : Nat) (dep : Hash) : Hash
deriving DecidableEq

/-- The value a (deterministic, copy-through) computation produces for a
given hash: the computation logic of the test node copies its dependency's
value, so equal hashes yield equal computed values, as required of the
computation logic provider. -/
def Hash.outVal : Hash → Val
  | .stored v => v
  | .computed _ dep => dep.outVal

/-!
## Plug hierarchy and settability

Modelled from the spec: `Plug::settable` is not under src/; only its test
(`ValuePlugTest.testSettable`) is.  A plug is a tree: direction, `ReadOnly`
flag, presence of an input connection, and child plugs.  The specification's
invariant says a plug is settable iff it has no input connection, is not
flagged `ReadOnly`, and all descendants satisfy the same; the test
additionally pins (lines 91-92) that a plug with direction `Out` is not
settable even with no input and `ReadOnly` unset, so the model includes the
direction check.
-/

/-- A plug hierarchy node for the settability model: direction, `ReadOnly`
flag, whether an input connection is assigned, and child plugs. -/
inductive PTree where
  | node (direction : Direction) (readOnly : Bool) (hasInput : Bool)
      (children : List PTree) : PTree

/-- Direction of the root plug. -/
def PTree.direction : PTree → Direction
  | .node d _ _ _ => d

/-- `ReadOnly` flag of the root plug. -/
def PTree.readOnly : PTree → Bool
  | .node _ ro _ _ => ro

/-- Whether the root plug has an input connection assigned. -/
def PTree.hasInput : PTree → Bool
  | .node _ _ inp _ => inp

/-- The child plugs of the root plug. -/
def PTree.children : PTree → List PTree
  | .node _ _ _ cs => cs

/-- Assign (`true`) or clear (`false`) the input connection of a plug,
leaving everything else unchanged. -/
def PTree.withInput : PTree → Bool → PTree
  | .node d ro _ cs, b => .node d ro b cs

mutual

/-- Modelled from the spec: `settable()` (missing from src/).  A plug is
settable iff it has no input connection, is not flagged `ReadOnly`, its
direction is `In` (pinned by testSettable: an `Out` plug is never settable),
and every descendant is settable too. -/
def settable : PTree → Bool
  | .node d ro inp cs =>
      !inp && !ro && (decide (d = Direction.In)) && settableAll cs

/-- All plugs of a list are settable. -/
def settableAll : List PTree → Bool
  | [] => true
  | t :: ts => settable t && settableAll ts

end

theorem settableAll_eq_true (ts : List PTree) :
    settableAll ts = true ↔ ∀ t ∈ ts, settable t = true := by
  induction ts with
  | nil => simp [settableAll]
  | cons t ts ih => simp [settableAll, ih]

theorem settable_node (d : Direction) (ro inp : Bool) (cs : List PTree) :
    settable (.node d ro inp cs) = true ↔
      inp = false ∧ ro = false ∧ d = Direction.In ∧
        ∀ c ∈ cs, settable c = true := by
  rw [settable]
  simp [settableAll_eq_true, and_assoc]

/-- C10: a plug created with direction `Out` is not settable, even with no
input connection, `ReadOnly` unset, and arbitrary children: direction alone
makes a plug non-settable. -/
theorem c10_out_plug_never_settable (cs : List PTree) :
    settable (.node Direction.Out false false cs) = false := by
  rw [settable]
  simp

/-- C2 counterexample: the claim's characterisation of `settable` (no input,
`ReadOnly` unset, all descendants settable, with no direction condition)
fails on a concrete plug of direction `Out`: it has no input, is not
read-only and has no children, yet `settable` returns `false`. -/
theorem c2_counterexample :
    (PTree.node Direction.Out false false []).hasInput = false ∧
    (PTree.node Direction.Out false false []).readOnly = false ∧
    settableAll (PTree.node Direction.Out false false []).children = true ∧
    settable (PTree.node Direction.Out false false []) = false := by
  refine ⟨rfl, rfl, ?_, ?_⟩
  · rw [PTree.children, settableAll]
  · rw [settable]
    simp

/-- C2 (amended): a plug is settable iff it has no input connection, its
`ReadOnly` flag is not set, its direction is `In`, and every descendant
satisfies the same; in particular assigning an input connection makes the
plug non-settable, and clearing that connection (with `ReadOnly` unset,
direction `In` and settable descendants) makes it settable again. -/
theorem c2_settable_characterisation (d : Direction) (ro inp : Bool)
    (cs : List PTree) :
    (settable (.node d ro inp cs) = true ↔
      inp = false ∧ ro = false ∧ d = Direction.In ∧
        ∀ c ∈ cs, settable c = true) ∧
    settable ((PTree.node d ro inp cs).withInput true) = false ∧
    (ro = false → d = Direction.In → (∀ c ∈ cs, settable c = true) →
      settable ((PTree.node d ro inp cs).withInput false) = true) := by
  refine ⟨settable_node d ro inp cs, ?_, ?_⟩
  · rw [PTree.withInput, settable]
    simp
  · intro hro hd hcs
    rw [PTree.withInput]
    exact (settable_node d ro false cs).mpr ⟨rfl, hro, hd, hcs⟩

/-- Witness for C2 (amended): applying the characterisation at a concrete
leaf plug of direction `In`. -/
theorem c2_settable_characterisation_witness :
    settable ((PTree.node Direction.In false true []).withInput false)
      = true :=
  (c2_settable_characterisation Direction.In false true []).2.2 rfl rfl
    (by intro c hc; cases hc)

/-!
## The evaluation engine: plug graph, hash engine and value cache

Modelled from the spec: the `ValuePlug` computation and caching engine is
not under src/; only its test suite is.  Leaf plugs are stored in a graph
keyed by identifier.  An output plug of a compute node carries
`computeFrom`, the dependency its computation logic declares; the test
node's computation copies that dependency's value (CachingTestNode computes
`StringData(in)`).  Each cache entry is modelled at unit memory cost, so the
memory limit counts resident entries; the spec's byte-cost soft cap
specialises to this when entries cost one unit each.
-/

/-- Modelled from the spec: a leaf plug record of the evaluation engine
(missing from src/): direction, `ReadOnly` and `Cacheable` flags, at most
one input connection, the dependency declared by its computation logic (for
output plugs of compute nodes), the identity discriminator of the computing
node, and the stored value. -/
structure Plug where
  direction : Direction
  readOnly : Bool
  cacheable : Bool
  input : Option Nat
  computeFrom : Option Nat
  nodeId : Nat
  storedValue : Val
deriving DecidableEq

/-- The plug graph: an association of plug identifiers to plugs. -/
structure Graph where
  plugs : List (Nat × Plug)
deriving DecidableEq

/-- Find the first plug stored under an identifier. -/
def findPlug : List (Nat × Plug) → Nat → Option Plug
  | [], _ => none
  | e :: es, i => if e.1 = i then some e.2 else findPlug es i

/-- Find a plug by identifier. -/
def Graph.find (g : Graph) (p : Nat) : Option Plug :=
  findPlug g.plugs p

/-- Follow the chain of input connections for at most `fuel` steps. -/
def sourceAux (g : Graph) : Nat → Nat → Nat
  | 0, p => p
  | fuel + 1, p =>
    match g.find p with
    | some pl =>
      match pl.input with
      | some q => sourceAux g fuel q
      | none => p
    | none => p

/-- The source of a plug: the upstream end of its chain of input
connections, which is the plug whose stored value or computation supplies
the value (input graphs are acyclic, so the graph size bounds chain
length). -/
def Graph.source (g : Graph) (p : Nat) : Nat :=
  sourceAux g (g.plugs.length + 1) p

/-- The stored value backing a plug: the stored value of the source of its
input chain. -/
def storedAt (g : Graph) (p : Nat) : Val :=
  match g.find (g.source p) with
  | some pl => pl.storedValue
  | none => Val.int 0

/-- Modelled from the spec: the Hash Engine (missing from src/).  The hash
of a plug summarizes everything needed to reproduce its value without
computing it: a plug with an input connection hashes as its source; a
computing source plug hashes the computing node's identity discriminator
together with the value its declared dependency resolves to; a plain source
plug hashes its own stored value. -/
def Graph.hashValue (g : Graph) (p : Nat) : Hash :=
  match g.find (g.source p) with
  | some pl =>
    match pl.computeFrom with
    | some q => Hash.computed pl.nodeId (Hash.stored (storedAt g q))
    | none => Hash.stored pl.storedValue
  | none => Hash.stored (Val.int 0)

/-- Modelled from the spec: the value a read of the plug must produce.  The
test node's computation copies its declared dependency's value; a plain
plug produces its stored value; input connections delegate to the
source. -/
def Graph.valueOf (g : Graph) (p : Nat) : Val :=
  match g.find (g.source p) with
  | some pl =>
    match pl.computeFrom with
    | some q => storedAt g q
    | none => pl.storedValue
  | none => Val.int 0

/-- The `Cacheable` flag governing a read of plug `p`: the flag of the
source plug whose computation actually runs. -/
def cacheableOf (g : Graph) (p : Nat) : Bool :=
  match g.find (g.source p) with
  | some pl => pl.cacheable
  | none => true

theorem hashValue_outVal (g : Graph) (p : Nat) :
    (g.hashValue p).outVal = g.valueOf p := by
  rw [Graph.hashValue, Graph.valueOf]
  cases hf : g.find (g.source p) with
  | none => rfl
  | some pl =>
    cases hc : pl.computeFrom with
    | none => simp [hc, Hash.outVal]
    | some q => simp [hc, Hash.outVal]

/-- Modelled from the spec: the engine state (missing from src/): the plug
graph, the process-wide value cache (most recently used entry first), the
cache memory limit (counted in resident entries, each of unit cost), the
next fresh allocation identity, and the running count of hash-computation
calls (the test's `numHashCalls`). -/
structure State where
  graph : Graph
  cacheEntries : List (Hash × Obj)
  memoryLimit : Nat
  nextId : Nat
  numHashCalls : Nat
deriving DecidableEq

/-- Look a hash up in the cache. -/
def lookupEntry : List (Hash × Obj) → Hash → Option Obj
  | [], _ => none
  | e :: es, h => if e.1 = h then some e.2 else lookupEntry es h

/-- Remove every entry stored under a hash. -/
def removeEntry : List (Hash × Obj) → Hash → List (Hash × Obj)
  | [], _ => []
  | e :: es, h => if e.1 = h then removeEntry es h else e :: removeEntry es h

/-- Modelled from the spec: `lookupOrCompute(hash, computeFn, cacheable)`
of the Value Cache (missing from src/).  On hit the existing shared object
is returned and its entry moves to the front (most recently used); on miss
the computation allocates a fresh object, which is stored (evicting
least-recently-used entries beyond the memory limit) only when `cacheable`
is true; when `cacheable` is false the cache is neither consulted nor
populated and every call allocates independently. -/
def lookupOrCompute (st : State) (h : Hash) (v : Val) (cacheable : Bool) :
    Obj × State :=
  if cacheable then
    match lookupEntry st.cacheEntries h with
    | some o =>
        (o, { st with cacheEntries := (h, o) :: removeEntry st.cacheEntries h })
    | none =>
        let o : Obj := ⟨st.nextId, v⟩
        (o, { st with
                nextId := st.nextId + 1,
                cacheEntries :=
                  List.take st.memoryLimit ((h, o) :: st.cacheEntries) })
  else
    let o : Obj := ⟨st.nextId, v⟩
    (o, { st with nextId := st.nextId + 1 })

/-- Modelled from the spec: `getValue` (missing from src/).  With no
precomputed hash the engine computes the plug's hash (counted in
`numHashCalls`); with a caller-supplied precomputed hash it must not
recompute the hash internally.  The hash then keys a cache lookup governed
by the source plug's `Cacheable` flag. -/
def getValue (st : State) (p : Nat) (pre : Option Hash) : Obj × State :=
  match pre with
  | some h => lookupOrCompute st h (st.graph.valueOf p) (cacheableOf st.graph p)
  | none =>
      lookupOrCompute { st with numHashCalls := st.numHashCalls + 1 }
        (st.graph.hashValue p) (st.graph.valueOf p) (cacheableOf st.graph p)

/-- Modelled from the spec: `setCacheMemoryLimit` (missing from src/): set
the cap and evict least-recently-used entries until under it; a limit of
`0` evicts everything immediately. -/
def setLimitOp (st : State) (l : Nat) : State :=
  { st with memoryLimit := l, cacheEntries := List.take l st.cacheEntries }

/-- Set the `Cacheable` flag of one plug, leaving all other plug state
unchanged (`setFlags(Cacheable, b)`). -/
def Graph.setCacheableFlag (g : Graph) (p : Nat) (b : Bool) : Graph :=
  ⟨g.plugs.map (fun e => if e.1 = p then (e.1, { e.2 with cacheable := b }) else e)⟩

/-- `setFlags(Cacheable, b)` on the engine state. -/
def setCacheableOp (st : State) (p : Nat) (b : Bool) : State :=
  { st with graph := st.graph.setCacheableFlag p b }

/-- Settability of a leaf plug of the engine graph: no input connection,
`ReadOnly` unset, direction `In`. -/
def plugSettable (pl : Plug) : Bool :=
  pl.input.isNone && !pl.readOnly && decide (pl.direction = Direction.In)

/-- The plugs depending directly on `p`: plugs whose input connection is
`p`, and output plugs whose computation logic declares `p` as a
dependency. -/
def dependents (g : Graph) (p : Nat) : List Nat :=
  g.plugs.filterMap
    (fun e => if e.2.input = some p ∨ e.2.computeFrom = some p then some e.1 else none)

/-- Modelled from the spec: the Dirty Propagation Engine's walk (missing
from src/): a breadth-first traversal along dependency edges from the
mutated plug, collecting each affected plug exactly once (the visited list
accumulates most recent first). -/
def propagateDirtiness (g : Graph) : Nat → List Nat → List Nat → List Nat
  | 0, visited, _ => visited
  | _ + 1, visited, [] => visited
  | fuel + 1, visited, p :: queue =>
    if p ∈ visited then propagateDirtiness g fuel visited queue
    else propagateDirtiness g fuel (p :: visited) (queue ++ dependents g p)

/-- The deduplicated batch of dirtiness notifications for a mutation of
plug `p`, in traversal order.  The fuel bounds the traversal: at most
`|plugs|` distinct plugs enter the visited list, each enqueuing at most
`|plugs|` dependents. -/
def dirtiedByMutation (g : Graph) (p : Nat) : List Nat :=
  (propagateDirtiness g ((g.plugs.length + 1) * (g.plugs.length + 1)) [] [p]).reverse

/-- Update the stored value of one plug. -/
def Graph.setStoredValue (g : Graph) (p : Nat) (v : Val) : Graph :=
  ⟨g.plugs.map (fun e => if e.1 = p then (e.1, { e.2 with storedValue := v }) else e)⟩

/-- Modelled from the spec: `setValue` (missing from src/).  Preconditions
are validated first (`NotSettableError` when the plug is not settable);
assigning a value equal to the current value is a no-op that emits no
notifications; otherwise the mutation is applied and the deduplicated batch
of dirtiness notifications for the affected set is emitted. -/
def setValueOp (st : State) (p : Nat) (v : Val) :
    Except String (State × List Nat) :=
  match st.graph.find p with
  | none => .error "NoSuchPlug"
  | some pl =>
    if plugSettable pl then
      if pl.storedValue = v then .ok (st, [])
      else
        let g := st.graph.setStoredValue p v
        .ok ({ st with graph := g }, dirtiedByMutation g p)
    else .error "NotSettableError"

/-- Well-formedness of the cache: every resident object was allocated
before the next fresh identity, and stores exactly the value its key hash
reproduces (the cache never holds partial or foreign results). -/
def cacheWf (st : State) : Prop :=
  ∀ e ∈ st.cacheEntries, e.2.id < st.nextId ∧ e.2.val = e.1.outVal

/-!
## Cache lemmas
-/

theorem lookupEntry_mem {es : List (Hash × Obj)} {h : Hash} {o : Obj}
    (hl : lookupEntry es h = some o) : (h, o) ∈ es := by
  induction es with
  | nil => simp [lookupEntry] at hl
  | cons e es ih =>
    rw [lookupEntry] at hl
    by_cases he : e.1 = h
    · simp [he] at hl
      subst hl
      rw [← he]
      exact List.mem_cons_self e es
    · simp [he] at hl
      exact List.mem_cons_of_mem e (ih hl)

theorem removeEntry_subset {es : List (Hash × Obj)} {h : Hash} {e : Hash × Obj}
    (he : e ∈ removeEntry es h) : e ∈ es := by
  induction es with
  | nil => simp [removeEntry] at he
  | cons e' es ih =>
    rw [removeEntry] at he
    by_cases h' : e'.1 = h
    · simp only [if_pos h'] at he
      exact List.mem_cons_of_mem e' (ih he)
    · simp only [if_neg h'] at he
      rcases List.mem_cons.mp he with h1 | h1
      · exact h1 ▸ List.mem_cons_self e' es
      · exact List.mem_cons_of_mem e' (ih h1)

theorem lookupOrCompute_cacheable_self (st : State) (h : Hash) (v : Val)
    (hl : 1 ≤ st.memoryLimit) :
    lookupEntry ((lookupOrCompute st h v true).2).cacheEntries h
      = some (lookupOrCompute st h v true).1 := by
  unfold lookupOrCompute
  cases he : lookupEntry st.cacheEntries h with
  | some o => simp [he, lookupEntry]
  | none =>
    obtain ⟨k, hk⟩ := Nat.exists_eq_succ_of_ne_zero (Nat.one_le_iff_ne_zero.mp hl)
    simp [he, hk, lookupEntry]

theorem lookupOrCompute_graph (st : State) (h : Hash) (v : Val) (c : Bool) :
    ((lookupOrCompute st h v c).2).graph = st.graph := by
  unfold lookupOrCompute
  cases c
  · rfl
  · cases he : lookupEntry st.cacheEntries h <;> simp [he]

theorem lookupOrCompute_limit (st : State) (h : Hash) (v : Val) (c : Bool) :
    ((lookupOrCompute st h v c).2).memoryLimit = st.memoryLimit := by
  unfold lookupOrCompute
  cases c
  · rfl
  · cases he : lookupEntry st.cacheEntries h <;> simp [he]

theorem lookupOrCompute_numHashCalls (st : State) (h : Hash) (v : Val) (c : Bool) :
    ((lookupOrCompute st h v c).2).numHashCalls = st.numHashCalls := by
  unfold lookupOrCompute
  cases c
  · rfl
  · cases he : lookupEntry st.cacheEntries h <;> simp [he]

theorem getValue_graph (st : State) (p : Nat) (pre : Option Hash) :
    ((getValue st p pre).2).graph = st.graph := by
  cases pre <;> simp [getValue, lookupOrCompute_graph]

theorem getValue_limit (st : State) (p : Nat) (pre : Option Hash) :
    ((getValue st p pre).2).memoryLimit = st.memoryLimit := by
  cases pre <;> simp [getValue, lookupOrCompute_limit]

theorem getValue_numHashCalls_pre (st : State) (p : Nat) (h : Hash) :
    ((getValue st p (some h)).2).numHashCalls = st.numHashCalls := by
  simp [getValue, lookupOrCompute_numHashCalls]

theorem getValue_of_hit_none (st : State) (p : Nat) (o : Obj)
    (hc : cacheableOf st.graph p = true)
    (hhit : lookupEntry st.cacheEntries (st.graph.hashValue p) = some o) :
    (getValue st p none).1 = o := by
  simp [getValue, lookupOrCompute, hc, hhit]

theorem getValue_of_hit_pre (st : State) (p : Nat) (h : Hash) (o : Obj)
    (hc : cacheableOf st.graph p = true)
    (hhit : lookupEntry st.cacheEntries h = some o) :
    (getValue st p (some h)).1 = o := by
  simp [getValue, lookupOrCompute, hc, hhit]

theorem lookupEntry_after_read (st : State) (p : Nat)
    (hc : cacheableOf st.graph p = true) (hl : 1 ≤ st.memoryLimit) :
    lookupEntry ((getValue st p none).2).cacheEntries (st.graph.hashValue p)
      = some (getValue st p none).1 := by
  rw [getValue, hc]
  exact lookupOrCompute_cacheable_self _ _ _ hl

/-!
## C1 and C3: cache sharing and the precomputed-hash shortcut
-/

/-- C1: for a cacheable output plug with a fixed input value, two
consecutive `getValue` calls (without copying) return the very same object
— identity, not mere equality — while the cache is resident: the second
read hits the entry left by the first. -/
theorem c1_cache_sharing (st : State) (p s : Nat) (pl : Plug)
    (hs : st.graph.source p = s) (hfind : st.graph.find s = some pl)
    (hc : pl.cacheable = true) (hl : 1 ≤ st.memoryLimit) :
    (getValue (getValue st p none).2 p none).1 = (getValue st p none).1 ∧
    Obj.isSame ((getValue (getValue st p none).2 p none).1)
      ((getValue st p none).1) = true := by
  have hco : cacheableOf st.graph p = true := by
    rw [cacheableOf, hs, hfind]
    exact hc
  have h1 := lookupEntry_after_read st p hco hl
  have hg : ((getValue st p none).2).graph = st.graph := getValue_graph st p none
  have heq : (getValue (getValue st p none).2 p none).1 = (getValue st p none).1 := by
    apply getValue_of_hit_none _ p _ (by rw [hg]; exact hco)
    rw [hg]
    exact h1
  exact ⟨heq, by rw [heq]; simp [Obj.isSame]⟩

/-- The string-input plug of the caching test node. -/
def inPlugW : Plug :=
  { direction := Direction.In, readOnly := false, cacheable := true,
    input := none, computeFrom := none, nodeId := 0,
    storedValue := Val.str "d" }

/-- The computed output plug of the caching test node: its computation
logic copies the input plug's value. -/
def outPlugW : Plug :=
  { direction := Direction.Out, readOnly := false, cacheable := true,
    input := none, computeFrom := some 0, nodeId := 1,
    storedValue := Val.str "" }

/-- The caching test node's graph: plug `0` is the input, plug `1` the
computed output. -/
def cachingGraph : Graph := ⟨[(0, inPlugW), (1, outPlugW)]⟩

/-- A fresh engine state over the caching test node: empty cache, room for
ten entries. -/
def freshStateW : State :=
  { graph := cachingGraph, cacheEntries := [], memoryLimit := 10,
    nextId := 0, numHashCalls := 0 }

/-- Witness for C1: two consecutive reads of the caching test node's output
plug return the identical object. -/
theorem c1_cache_sharing_witness :
    freshStateW.graph.source 1 = 1 ∧
    freshStateW.graph.find 1 = some outPlugW ∧
    outPlugW.cacheable = true ∧ 1 ≤ freshStateW.memoryLimit ∧
    ((getValue (getValue freshStateW 1 none).2 1 none).1
        = (getValue freshStateW 1 none).1 ∧
      Obj.isSame ((getValue (getValue freshStateW 1 none).2 1 none).1)
        ((getValue freshStateW 1 none).1) = true) :=
  ⟨by decide, by decide, by decide, by decide,
    c1_cache_sharing freshStateW 1 1 outPlugW (by decide) (by decide)
      (by decide) (by decide)⟩

/-- C3: calling `getValue` with a caller-supplied precomputed hash equal to
the plug's true current hash leaves the hash-computation call count exactly
as it was before the call, and returns the same cached object a prior read
returned. -/
theorem c3_precomputed_hash (st : State) (p s : Nat) (pl : Plug)
    (hs : st.graph.source p = s) (hfind : st.graph.find s = some pl)
    (hc : pl.cacheable = true) (hl : 1 ≤ st.memoryLimit) :
    ((getValue (getValue st p none).2 p
        (some (((getValue st p none).2).graph.hashValue p))).2).numHashCalls
      = ((getValue st p none).2).numHashCalls ∧
    (getValue (getValue st p none).2 p
        (some (((getValue st p none).2).graph.hashValue p))).1
      = (getValue st p none).1 ∧
    Obj.isSame ((getValue (getValue st p none).2 p
        (some (((getValue st p none).2).graph.hashValue p))).1)
      ((getValue st p none).1) = true := by
  have hco : cacheableOf st.graph p = true := by
    rw [cacheableOf, hs, hfind]
    exact hc
  have h1 := lookupEntry_after_read st p hco hl
  have hg : ((getValue st p none).2).graph = st.graph := getValue_graph st p none
  have heq : (getValue (getValue st p none).2 p
      (some (((getValue st p none).2).graph.hashValue p))).1
        = (getValue st p none).1 := by
    apply getValue_of_hit_pre _ p _ _ (by rw [hg]; exact hco)
    rw [hg]
    exact h1
  exact ⟨getValue_numHashCalls_pre _ p _, heq, by rw [heq]; simp [Obj.isSame]⟩

/-- Witness for C3: supplying the output plug's current hash to a second
read leaves the hash-call count unchanged and returns the prior object. -/
theorem c3_precomputed_hash_witness :
    freshStateW.graph.source 1 = 1 ∧
    freshStateW.graph.find 1 = some outPlugW ∧
    outPlugW.cacheable = true ∧ 1 ≤ freshStateW.memoryLimit ∧
    (((getValue (getValue freshStateW 1 none).2 1
        (some (((getValue freshStateW 1 none).2).graph.hashValue 1))).2).numHashCalls
      = ((getValue freshStateW 1 none).2).numHashCalls ∧
    (getValue (getValue freshStateW 1 none).2 1
        (some (((getValue freshStateW 1 none).2).graph.hashValue 1))).1
      = (getValue freshStateW 1 none).1 ∧
    Obj.isSame ((getValue (getValue freshStateW 1 none).2 1
        (some (((getValue freshStateW 1 none).2).graph.hashValue 1))).1)
      ((getValue freshStateW 1 none).1) = true) :=
  ⟨by decide, by decide, by decide, by decide,
    c3_precomputed_hash freshStateW 1 1 outPlugW (by decide) (by decide)
      (by decide) (by decide)⟩

/-!
## C6: cache memory limit
-/

theorem lookupOrCompute_val_of_outVal (st : State) (h : Hash) (c : Bool)
    (hwf : ∀ e ∈ st.cacheEntries, e.2.val = e.1.outVal) :
    ((lookupOrCompute st h h.outVal c).1).val = h.outVal := by
  unfold lookupOrCompute
  cases c
  · rfl
  · cases he : lookupEntry st.cacheEntries h with
    | none => simp [he]
    | some o =>
      simp [he]
      exact hwf _ (lookupEntry_mem he)

theorem lookupOrCompute_id_lt (st : State) (h : Hash) (v : Val) (c : Bool)
    (hwf : ∀ e ∈ st.cacheEntries, e.2.id < st.nextId) :
    ((lookupOrCompute st h v c).1).id < ((lookupOrCompute st h v c).2).nextId := by
  unfold lookupOrCompute
  cases c
  · simpa using Nat.lt_succ_self st.nextId
  · cases he : lookupEntry st.cacheEntries h with
    | none => simpa [he] using Nat.lt_succ_self st.nextId
    | some o =>
      simp [he]
      exact hwf _ (lookupEntry_mem he)

theorem lookupOrCompute_nextId_le (st : State) (h : Hash) (v : Val) (c : Bool) :
    st.nextId ≤ ((lookupOrCompute st h v c).2).nextId := by
  unfold lookupOrCompute
  cases c
  · simpa using Nat.le_succ st.nextId
  · cases he : lookupEntry st.cacheEntries h with
    | none => simpa [he] using Nat.le_succ st.nextId
    | some o => simp [he]

theorem cacheWf_lookupOrCompute (st : State) (h : Hash) (c : Bool)
    (hwf : cacheWf st) : cacheWf ((lookupOrCompute st h h.outVal c).2) := by
  unfold lookupOrCompute
  cases c
  · intro e he
    exact ⟨Nat.lt_succ_of_lt (hwf e he).1, (hwf e he).2⟩
  · cases he : lookupEntry st.cacheEntries h with
    | some o =>
      simp only [he, if_true]
      intro e hmem
      rcases List.mem_cons.mp hmem with h1 | h1
      · subst h1
        exact hwf _ (lookupEntry_mem he)
      · exact hwf _ (removeEntry_subset h1)
    | none =>
      simp only [he, if_true]
      intro e hmem
      have hmem' := List.take_subset _ _ hmem
      rcases List.mem_cons.mp hmem' with h1 | h1
      · subst h1
        exact ⟨Nat.lt_succ_self _, rfl⟩
      · exact ⟨Nat.lt_succ_of_lt (hwf e h1).1, (hwf e h1).2⟩

theorem cacheWf_getValue_none (st : State) (p : Nat) (hwf : cacheWf st) :
    cacheWf ((getValue st p none).2) := by
  rw [getValue]
  have hv : st.graph.valueOf p = (st.graph.hashValue p).outVal :=
    (hashValue_outVal _ _).symm
  rw [hv]
  exact cacheWf_lookupOrCompute _ _ _ (fun e he => hwf e he)

theorem getValue_val_none (st : State) (p : Nat) (hwf : cacheWf st) :
    ((getValue st p none).1).val = st.graph.valueOf p := by
  rw [getValue]
  have hv : st.graph.valueOf p = (st.graph.hashValue p).outVal :=
    (hashValue_outVal _ _).symm
  rw [hv]
  exact lookupOrCompute_val_of_outVal _ _ _ (fun e he => (hwf e he).2)

theorem getValue_id_lt (st : State) (p : Nat) (hwf : cacheWf st) :
    ((getValue st p none).1).id < ((getValue st p none).2).nextId := by
  rw [getValue]
  exact lookupOrCompute_id_lt _ _ _ _ (fun e he => (hwf e he).1)

theorem cacheWf_setLimitOp (st : State) (l : Nat) (hwf : cacheWf st) :
    cacheWf (setLimitOp st l) := by
  intro e he
  exact hwf e (List.take_subset _ _ he)

theorem getValue_empty_cache (st : State) (p : Nat)
    (he : st.cacheEntries = []) (hc : cacheableOf st.graph p = true) :
    (getValue st p none).1 = ⟨st.nextId, st.graph.valueOf p⟩ := by
  rw [getValue]
  unfold lookupOrCompute
  have : lookupEntry st.cacheEntries (st.graph.hashValue p) = none := by
    rw [he]
    rfl
  simp [hc, this]

/-- C6: setting the cache memory limit to `0` evicts everything, so the
next `getValue` returns an object that is value-equal but not identical to
the previously returned one; after restoring a non-zero limit, two further
consecutive reads again return objects identical to each other. -/
theorem c6_cache_limit (st : State) (p L : Nat) (hwf : cacheWf st)
    (hc : cacheableOf st.graph p = true) (hL : 1 ≤ L) :
    (setLimitOp (getValue st p none).2 0).cacheEntries = [] ∧
    Obj.isSame ((getValue (setLimitOp (getValue st p none).2 0) p none).1)
      ((getValue st p none).1) = false ∧
    ((getValue (setLimitOp (getValue st p none).2 0) p none).1).val
      = ((getValue st p none).1).val ∧
    (getValue ((getValue (setLimitOp
        (getValue (setLimitOp (getValue st p none).2 0) p none).2 L) p none).2)
        p none).1
      = (getValue (setLimitOp
          (getValue (setLimitOp (getValue st p none).2 0) p none).2 L) p none).1 ∧
    Obj.isSame
      ((getValue ((getValue (setLimitOp
          (getValue (setLimitOp (getValue st p none).2 0) p none).2 L) p none).2)
          p none).1)
      ((getValue (setLimitOp
          (getValue (setLimitOp (getValue st p none).2 0) p none).2 L) p none).1)
      = true := by
  set A := getValue st p none with hA
  set st2 := setLimitOp A.2 0 with hst2
  set B := getValue st2 p none with hB
  set st4 := setLimitOp B.2 L with hst4
  set C := getValue st4 p none with hC
  have hEmpty : st2.cacheEntries = [] := by
    rw [hst2]
    simp [setLimitOp]
  have hg1 : A.2.graph = st.graph := getValue_graph st p none
  have hg2 : st2.graph = st.graph := by rw [hst2, setLimitOp]; exact hg1
  have hco2 : cacheableOf st2.graph p = true := by rw [hg2]; exact hc
  have hB1 : B.1 = ⟨st2.nextId, st2.graph.valueOf p⟩ :=
    getValue_empty_cache st2 p hEmpty hco2
  have idA : A.1.id < A.2.nextId := getValue_id_lt st p hwf
  have hn2 : st2.nextId = A.2.nextId := by rw [hst2, setLimitOp]
  have hne : B.1.id ≠ A.1.id := by
    rw [hB1]
    exact Nat.ne_of_gt (by rw [hn2]; exact idA)
  have hvalA : A.1.val = st.graph.valueOf p := getValue_val_none st p hwf
  have hvalB : B.1.val = A.1.val := by
    rw [hB1, hvalA, hg2]
  have hg3 : B.2.graph = st.graph := by
    rw [hB]
    rw [getValue_graph st2 p none]
    exact hg2
  have hg4 : st4.graph = st.graph := by rw [hst4, setLimitOp]; exact hg3
  have hco4 : cacheableOf st4.graph p = true := by rw [hg4]; exact hc
  have hl4 : 1 ≤ st4.memoryLimit := by rw [hst4, setLimitOp]; exact hL
  have h1 := lookupEntry_after_read st4 p hco4 hl4
  have hgC : C.2.graph = st4.graph := getValue_graph st4 p none
  have heq : (getValue C.2 p none).1 = C.1 := by
    apply getValue_of_hit_none _ p _ (by rw [hgC]; exact hco4)
    rw [hgC]
    exact h1
  refine ⟨hEmpty, ?_, hvalB, heq, ?_⟩
  · simp only [Obj.isSame, beq_eq_false_iff_ne, ne_eq]
    exact hne
  · rw [heq]
    simp [Obj.isSame]

/-- Witness for C6: run the limit-to-zero and limit-restore sequence on the
caching test node from a fresh state (restored limit `5`). -/
theorem c6_cache_limit_witness :
    cacheWf freshStateW ∧ cacheableOf freshStateW.graph 1 = true ∧ 1 ≤ 5 ∧
    ((setLimitOp (getValue freshStateW 1 none).2 0).cacheEntries = [] ∧
    Obj.isSame
      ((getValue (setLimitOp (getValue freshStateW 1 none).2 0) 1 none).1)
      ((getValue freshStateW 1 none).1) = false ∧
    ((getValue (setLimitOp (getValue freshStateW 1 none).2 0) 1 none).1).val
      = ((getValue freshStateW 1 none).1).val ∧
    (getValue ((getValue (setLimitOp
        (getValue (setLimitOp (getValue freshStateW 1 none).2 0) 1 none).2 5)
        1 none).2) 1 none).1
      = (getValue (setLimitOp
          (getValue (setLimitOp (getValue freshStateW 1 none).2 0) 1 none).2 5)
          1 none).1 ∧
    Obj.isSame
      ((getValue ((getValue (setLimitOp
          (getValue (setLimitOp (getValue freshStateW 1 none).2 0) 1 none).2 5)
          1 none).2) 1 none).1)
      ((getValue (setLimitOp
          (getValue (setLimitOp (getValue freshStateW 1 none).2 0) 1 none).2 5)
          1 none).1) = true) :=
  ⟨by intro e he; simp [freshStateW] at he, by decide, by decide,
    c6_cache_limit freshStateW 1 5
      (by intro e he; simp [freshStateW] at he) (by decide) (by decide)⟩

/-!
## C5: non-cacheable propagation

Setting the `Cacheable` flag changes no structural field, so input chains,
hashes and computed values are unaffected; only cache participation is.
-/

theorem findPlug_setCacheable (p : Nat) (b : Bool) :
    ∀ (l : List (Nat × Plug)) (i : Nat),
    findPlug (l.map (fun e => if e.1 = p then (e.1, { e.2 with cacheable := b }) else e)) i
      = (findPlug l i).map
          (fun pl => if i = p then { pl with cacheable := b } else pl) := by
  intro l
  induction l with
  | nil => intro i; rfl
  | cons e l ih =>
    intro i
    by_cases hep : e.1 = p
    · subst hep
      by_cases hie : e.1 = i
      · subst hie
        simp [findPlug]
      · simp [findPlug, hie, ih]
    · by_cases hie : e.1 = i
      · subst hie
        simp [findPlug, hep]
      · simp [findPlug, hep, hie, ih]

theorem find_setCacheableFlag (g : Graph) (p i : Nat) (b : Bool) :
    (g.setCacheableFlag p b).find i
      = (g.find i).map (fun pl => if i = p then { pl with cacheable := b } else pl) :=
  findPlug_setCacheable p b g.plugs i

theorem sourceAux_setCacheable (g : Graph) (p : Nat) (b : Bool) :
    ∀ (fuel q : Nat), sourceAux (g.setCacheableFlag p b) fuel q = sourceAux g fuel q := by
  intro fuel
  induction fuel with
  | zero => intro q; rfl
  | succ fuel ih =>
    intro q
    rw [sourceAux, sourceAux, find_setCacheableFlag]
    cases hf : g.find q with
    | none => rfl
    | some pl =>
      have hinp : (if q = p then { pl with cacheable := b } else pl).input = pl.input := by
        by_cases hqp : q = p <;> simp [hqp]
      simp only [Option.map_some']
      rw [hinp]
      cases pl.input with
      | none => rfl
      | some r => exact ih r

theorem source_setCacheableFlag (g : Graph) (p : Nat) (b : Bool) (q : Nat) :
    (g.setCacheableFlag p b).source q = g.source q := by
  rw [Graph.source, Graph.source]
  have hlen : (g.setCacheableFlag p b).plugs.length = g.plugs.length := by
    rw [Graph.setCacheableFlag]
    exact List.length_map _ _
  rw [hlen, sourceAux_setCacheable]

theorem storedAt_setCacheableFlag (g : Graph) (p : Nat) (b : Bool) (q : Nat) :
    storedAt (g.setCacheableFlag p b) q = storedAt g q := by
  rw [storedAt, storedAt, source_setCacheableFlag, find_setCacheableFlag]
  cases hf : g.find (g.source q) with
  | none => rfl
  | some pl => by_cases hqp : g.source q = p <;> simp [hqp]

theorem valueOf_setCacheableFlag (g : Graph) (p : Nat) (b : Bool) (q : Nat) :
    (g.setCacheableFlag p b).valueOf q = g.valueOf q := by
  rw [Graph.valueOf, Graph.valueOf, source_setCacheableFlag, find_setCacheableFlag]
  cases hf : g.find (g.source q) with
  | none => rfl
  | some pl =>
    by_cases hqp : g.source q = p <;>
      · simp only [Option.map_some', hqp, if_true, if_false]
        cases pl.computeFrom <;> simp [storedAt_setCacheableFlag]

theorem cacheableOf_setCacheableFlag_source (g : Graph) (q s : Nat) (b : Bool)
    (pl : Plug) (hs : g.source q = s) (hfind : g.find s = some pl) :
    cacheableOf (g.setCacheableFlag s b) q = b := by
  rw [cacheableOf, source_setCacheableFlag, hs, find_setCacheableFlag, hfind]
  simp

theorem getValue_not_cacheable (st : State) (p : Nat)
    (hc : cacheableOf st.graph p = false) :
    getValue st p none
      = (⟨st.nextId, st.graph.valueOf p⟩,
          { st with numHashCalls := st.numHashCalls + 1, nextId := st.nextId + 1 }) := by
  rw [getValue]
  unfold lookupOrCompute
  simp [hc]

/-- C5: two downstream plugs reading through input chains to the same
cacheable upstream source return the identical shared object; after setting
the upstream plug's `Cacheable` flag to false the two reads return
value-equal but non-identical objects, sharing no cache entry. -/
theorem c5_uncacheable (st : State) (q r s : Nat) (pl : Plug)
    (hq : st.graph.source q = s) (hr : st.graph.source r = s)
    (hfind : st.graph.find s = some pl) (hc : pl.cacheable = true)
    (hl : 1 ≤ st.memoryLimit) :
    (Obj.isSame ((getValue (getValue st q none).2 r none).1)
        ((getValue st q none).1) = true ∧
      (getValue (getValue st q none).2 r none).1 = (getValue st q none).1) ∧
    Obj.isSame
        ((getValue (getValue (setCacheableOp st s false) q none).2 r none).1)
        ((getValue (setCacheableOp st s false) q none).1) = false ∧
    ((getValue (getValue (setCacheableOp st s false) q none).2 r none).1).val
        = ((getValue (setCacheableOp st s false) q none).1).val := by
  have hcoq : cacheableOf st.graph q = true := by
    rw [cacheableOf, hq, hfind]
    exact hc
  have hcor : cacheableOf st.graph r = true := by
    rw [cacheableOf, hr, hfind]
    exact hc
  have hhq : st.graph.hashValue r = st.graph.hashValue q := by
    rw [Graph.hashValue, Graph.hashValue, hq, hr]
  have hvrq : st.graph.valueOf r = st.graph.valueOf q := by
    rw [Graph.valueOf, Graph.valueOf, hq, hr]
  have h1 := lookupEntry_after_read st q hcoq hl
  have hg : ((getValue st q none).2).graph = st.graph := getValue_graph st q none
  have heq1 : (getValue (getValue st q none).2 r none).1 = (getValue st q none).1 := by
    apply getValue_of_hit_none _ r _ (by rw [hg]; exact hcor)
    rw [hg, hhq]
    exact h1
  have hcoq' : cacheableOf (setCacheableOp st s false).graph q = false :=
    cacheableOf_setCacheableFlag_source st.graph q s false pl hq hfind
  have hcor' : cacheableOf (setCacheableOp st s false).graph r = false :=
    cacheableOf_setCacheableFlag_source st.graph r s false pl hr hfind
  have hA := getValue_not_cacheable (setCacheableOp st s false) q hcoq'
  have hcor2 : cacheableOf ((getValue (setCacheableOp st s false) q none).2).graph r
      = false := by
    rw [hA]
    exact hcor'
  have hB := getValue_not_cacheable ((getValue (setCacheableOp st s false) q none).2)
    r hcor2
  refine ⟨⟨by rw [heq1]; simp [Obj.isSame], heq1⟩, ?_, ?_⟩
  · rw [hB, hA]
    simp [Obj.isSame]
  · rw [hB, hA]
    show (st.graph.setCacheableFlag s false).valueOf r
      = (st.graph.setCacheableFlag s false).valueOf q
    rw [valueOf_setCacheableFlag, valueOf_setCacheableFlag, hvrq]

/-- A pass-through plug for the connection-chain fixture: direction `In`,
input connection to the given plug. -/
def chainPlug (src : Nat) (nid : Nat) (v : Val) : Plug :=
  { direction := Direction.In, readOnly := false, cacheable := true,
    input := some src, computeFrom := none, nodeId := nid, storedValue := v }

/-- The uncacheability-propagation fixture: `p1 = 2`, `p2 = 3`, `p3 = 4`
read through input connections to the computed output plug `1`. -/
def chainGraph : Graph :=
  ⟨[(0, inPlugW), (1, outPlugW),
    (2, chainPlug 1 2 (Val.int 10)),
    (3, chainPlug 2 3 (Val.int 20)),
    (4, chainPlug 3 4 (Val.int 30))]⟩

/-- A fresh engine state over the connection-chain fixture. -/
def chainStateW : State :=
  { graph := chainGraph, cacheEntries := [], memoryLimit := 10,
    nextId := 0, numHashCalls := 0 }

/-- Witness for C5: reads of `p2` and `p3` through the chain share identity
while the upstream output is cacheable, and stop sharing it after its
`Cacheable` flag is cleared. -/
theorem c5_uncacheable_witness :
    chainStateW.graph.source 3 = 1 ∧ chainStateW.graph.source 4 = 1 ∧
    chainStateW.graph.find 1 = some outPlugW ∧ outPlugW.cacheable = true ∧
    1 ≤ chainStateW.memoryLimit ∧
    ((Obj.isSame ((getValue (getValue chainStateW 3 none).2 4 none).1)
        ((getValue chainStateW 3 none).1) = true ∧
      (getValue (getValue chainStateW 3 none).2 4 none).1
        = (getValue chainStateW 3 none).1) ∧
    Obj.isSame
        ((getValue (getValue (setCacheableOp chainStateW 1 false) 3 none).2 4 none).1)
        ((getValue (setCacheableOp chainStateW 1 false) 3 none).1) = false ∧
    ((getValue (getValue (setCacheableOp chainStateW 1 false) 3 none).2 4 none).1).val
        = ((getValue (setCacheableOp chainStateW 1 false) 3 none).1).val) :=
  ⟨by decide, by decide, by decide, by decide, by decide,
    c5_uncacheable chainStateW 3 4 1 outPlugW (by decide) (by decide)
      (by decide) (by decide) (by decide)⟩

/-!
## C4: dirtying idempotence and deduplication
-/

theorem propagateDirtiness_append (g : Graph) :
    ∀ (fuel : Nat) (visited queue : List Nat),
    ∃ ext, propagateDirtiness g fuel visited queue = ext ++ visited := by
  intro fuel
  induction fuel with
  | zero => intro visited queue; exact ⟨[], rfl⟩
  | succ fuel ih =>
    intro visited queue
    cases queue with
    | nil => exact ⟨[], rfl⟩
    | cons p queue =>
      rw [propagateDirtiness]
      by_cases hp : p ∈ visited
      · simp only [if_pos hp]
        exact ih visited queue
      · simp only [if_neg hp]
        obtain ⟨ext, hext⟩ := ih (p :: visited) (queue ++ dependents g p)
        exact ⟨ext ++ [p], by rw [hext]; simp⟩

theorem propagateDirtiness_nodup (g : Graph) :
    ∀ (fuel : Nat) (visited queue : List Nat), visited.Nodup →
    (propagateDirtiness g fuel visited queue).Nodup := by
  intro fuel
  induction fuel with
  | zero => intro visited queue h; exact h
  | succ fuel ih =>
    intro visited queue h
    cases queue with
    | nil => exact h
    | cons p queue =>
      rw [propagateDirtiness]
      by_cases hp : p ∈ visited
      · simp only [if_pos hp]
        exact ih visited queue h
      · simp only [if_neg hp]
        exact ih (p :: visited) (queue ++ dependents g p)
          (List.nodup_cons.mpr ⟨hp, h⟩)

theorem propagateDirtiness_mem (g : Graph) (fuel : Nat)
    (visited queue : List Nat) (x : Nat) (hx : x ∈ visited) :
    x ∈ propagateDirtiness g fuel visited queue := by
  obtain ⟨ext, hext⟩ := propagateDirtiness_append g fuel visited queue
  rw [hext]
  exact List.mem_append.mpr (Or.inr hx)

theorem dirtiedByMutation_count (g : Graph) (p : Nat) :
    (dirtiedByMutation g p).count p = 1 ∧ (dirtiedByMutation g p).Nodup := by
  rw [dirtiedByMutation]
  obtain ⟨k, hk⟩ : ∃ k, (g.plugs.length + 1) * (g.plugs.length + 1) = k + 1 :=
    ⟨g.plugs.length * g.plugs.length + 2 * g.plugs.length, by ring⟩
  rw [hk]
  rw [propagateDirtiness]
  simp only [List.not_mem_nil, if_neg, if_false]
  have hnd : (propagateDirtiness g k [p] ([] ++ dependents g p)).Nodup :=
    propagateDirtiness_nodup g k [p] _ (List.nodup_singleton p)
  have hmem : p ∈ propagateDirtiness g k [p] ([] ++ dependents g p) :=
    propagateDirtiness_mem g k [p] _ p (List.mem_singleton_self p)
  refine ⟨?_, List.nodup_reverse.mpr hnd⟩
  rw [List.count_reverse]
  exact List.count_eq_one_of_mem hnd hmem

/-- C4: on a settable leaf plug with no input connection, `setValue` with a
value equal to the current value emits zero dirtiness notifications, and
`setValue` with a different value emits a deduplicated batch containing
exactly one notification for that plug, even when the plug is reachable via
multiple downstream paths. -/
theorem c4_dirtiness (st : State) (p : Nat) (pl : Plug) (v : Val)
    (hfind : st.graph.find p = some pl) (hset : plugSettable pl = true) :
    (v = pl.storedValue → setValueOp st p v = .ok (st, [])) ∧
    (v ≠ pl.storedValue →
      ∃ st2 ds, setValueOp st p v = .ok (st2, ds) ∧
        ds.count p = 1 ∧ ds.Nodup) := by
  constructor
  · intro hv
    simp [setValueOp, hfind, hset, hv]
  · intro hv
    have hne : ¬(pl.storedValue = v) := fun h => hv h.symm
    refine ⟨{ st with graph := st.graph.setStoredValue p v },
      dirtiedByMutation (st.graph.setStoredValue p v) p, ?_,
      (dirtiedByMutation_count _ p).1, (dirtiedByMutation_count _ p).2⟩
    simp [setValueOp, hfind, hset, hne]

/-- A plain settable input plug holding the integer `1`, mutated by the
dirtiness fixture. -/
def dirtyPlug0 : Plug :=
  { direction := Direction.In, readOnly := false, cacheable := true,
    input := none, computeFrom := none, nodeId := 0, storedValue := Val.int 1 }

/-- A diamond of dependencies over plug `0`: plugs `1` and `2` take their
input from `0`, and plug `3` is reachable from `0` along both paths (input
from `1`, declared computation dependency on `2`). -/
def diamondGraph : Graph :=
  ⟨[(0, dirtyPlug0),
    (1, chainPlug 0 1 (Val.int 0)),
    (2, chainPlug 0 2 (Val.int 0)),
    (3, { direction := Direction.Out, readOnly := false, cacheable := true,
          input := some 1, computeFrom := some 2, nodeId := 3,
          storedValue := Val.int 0 })]⟩

/-- Engine state over the diamond fixture. -/
def diamondStateW : State :=
  { graph := diamondGraph, cacheEntries := [], memoryLimit := 10,
    nextId := 0, numHashCalls := 0 }

/-- Witness for C4: on the diamond fixture, re-assigning the current value
emits nothing, and assigning a new value emits a duplicate-free batch with
exactly one notification for the mutated plug. -/
theorem c4_dirtiness_witness :
    diamondStateW.graph.find 0 = some dirtyPlug0 ∧
    plugSettable dirtyPlug0 = true ∧
    setValueOp diamondStateW 0 (Val.int 1) = .ok (diamondStateW, []) ∧
    ∃ st2 ds, setValueOp diamondStateW 0 (Val.int 7) = .ok (st2, ds) ∧
      ds.count 0 = 1 ∧ ds.Nodup :=
  ⟨by decide, by decide,
    (c4_dirtiness diamondStateW 0 dirtyPlug0 (Val.int 1) (by decide)
      (by decide)).1 (by decide),
    (c4_dirtiness diamondStateW 0 dirtyPlug0 (Val.int 7) (by decide)
      (by decide)).2 (by decide)⟩

/-!
## Serialization differ and replay

Modelled from the spec: the Serialization Differ and ScriptNode execution
(missing from src/).  A script is a list of nodes, each holding plugs keyed
by identifier with a stored value, a type default, and an optional input
connection naming its source node and plug.  Serialisation, given a filter
of included node identifiers, emits a value-restoring statement exactly for
plugs whose stored value differs from the type default, and a
connection-restoring statement only when the connection's source node is
included in the filter.  Replay starts from freshly constructed nodes (all
plugs at their defaults, no connections) and applies the statements in
order.
-/

/-- A reconstruction statement: restore a plug's value, or restore an input
connection. -/
inductive Statement where
  | setVal (node : Nat) (plug : Nat) (v : Val) : Statement
  | connect (dstNode : Nat) (dstPlug : Nat) (srcNode : Nat) (srcPlug : Nat) : Statement
deriving DecidableEq

/-- A serialisable plug: stored literal value, type default, and optional
input connection (source node, source plug). -/
structure SPlug where
  storedValue : Val
  defaultValue : Val
  input : Option (Nat × Nat)
deriving DecidableEq

/-- A serialisable node: identifier and plugs keyed by identifier. -/
structure SNode where
  id : Nat
  plugs : List (Nat × SPlug)
deriving DecidableEq

/-- The connection-restoring statements for a plug: one when the plug has
an input connection whose source node is in the filter, none otherwise. -/
def connStatements (flt : List Nat) (n pid : Nat) :
    Option (Nat × Nat) → List Statement
  | some (sn, sp) => if sn ∈ flt then [Statement.connect n pid sn sp] else []
  | none => []

/-- Modelled from the spec: the per-plug serialisation (missing from src/):
one value-restoring statement when the stored value differs from the type
default and none otherwise, plus a connection-restoring statement only when
the connection's source node is in the filter. -/
def serialisePlug (flt : List Nat) (n pid : Nat) (pl : SPlug) : List Statement :=
  (if pl.storedValue = pl.defaultValue then []
   else [Statement.setVal n pid pl.storedValue])
  ++ connStatements flt n pid pl.input

/-- Serialisation of one node: the statements of all its plugs. -/
def serialiseNode (flt : List Nat) (nd : SNode) : List Statement :=
  nd.plugs.flatMap (fun e => serialisePlug flt nd.id e.1 e.2)

/-- Modelled from the spec: serialisation of a script restricted to a
filter of included nodes. -/
def serialise (script : List SNode) (flt : List Nat) : List Statement :=
  (script.filter (fun nd => nd.id ∈ flt)).flatMap (serialiseNode flt)

/-- A freshly constructed plug: at its type default, with no input
connection. -/
def freshPlug (pl : SPlug) : SPlug :=
  { storedValue := pl.defaultValue, defaultValue := pl.defaultValue,
    input := none }

/-- A freshly constructed node: every plug fresh. -/
def freshNode (nd : SNode) : SNode :=
  { id := nd.id, plugs := nd.plugs.map (fun e => (e.1, freshPlug e.2)) }

/-- Apply a function to the plug `pid` of a node, leaving its identifier
and other plugs unchanged. -/
def updateNodePlugs (pid : Nat) (f : SPlug → SPlug) (nd : SNode) : SNode :=
  { nd with plugs := nd.plugs.map (fun e => if e.1 = pid then (e.1, f e.2) else e) }

/-- Apply a function to the plug `pid` of node `n`. -/
def updatePlug (nodes : List SNode) (n pid : Nat) (f : SPlug → SPlug) :
    List SNode :=
  nodes.map (fun nd => if nd.id = n then updateNodePlugs pid f nd else nd)

/-- The effect of a statement on its target plug. -/
def plugEffect : Statement → SPlug → SPlug
  | .setVal _ _ v, pl => { pl with storedValue := v }
  | .connect _ _ sn sp, pl => { pl with input := some (sn, sp) }

/-- The node a statement addresses. -/
def stmtDstNode : Statement → Nat
  | .setVal n _ _ => n
  | .connect n _ _ _ => n

/-- The plug a statement addresses. -/
def stmtDstPlug : Statement → Nat
  | .setVal _ p _ => p
  | .connect _ p _ _ => p

/-- Whether a statement addresses the given node and plug. -/
def targetsPlug (n pid : Nat) (s : Statement) : Bool :=
  decide (stmtDstNode s = n) && decide (stmtDstPlug s = pid)

/-- Whether a statement is a value-restoring statement for the given node
and plug. -/
def isSetValueFor (n pid : Nat) : Statement → Bool
  | .setVal n' p' _ => decide (n' = n) && decide (p' = pid)
  | .connect _ _ _ _ => false

/-- Apply one statement to the replayed hierarchy. -/
def applyStatement (nodes : List SNode) : Statement → List SNode
  | .setVal n pid v => updatePlug nodes n pid (fun pl => { pl with storedValue := v })
  | .connect n pid sn sp =>
      updatePlug nodes n pid (fun pl => { pl with input := some (sn, sp) })

/-- Modelled from the spec: replaying the serialised script into a freshly
constructed hierarchy containing the filtered nodes. -/
def executeScript (script : List SNode) (flt : List Nat) : List SNode :=
  (serialise script flt).foldl applyStatement
    ((script.filter (fun nd => nd.id ∈ flt)).map freshNode)

/-- Find the first serialisable plug stored under an identifier. -/
def findSPlug : List (Nat × SPlug) → Nat → Option SPlug
  | [], _ => none
  | e :: es, i => if e.1 = i then some e.2 else findSPlug es i

/-- Look a plug up in a replayed hierarchy. -/
def getPlug (nodes : List SNode) (n pid : Nat) : Option SPlug :=
  match nodes.find? (fun nd => decide (nd.id = n)) with
  | some nd => findSPlug nd.plugs pid
  | none => none

/-!
## C7: serialisation omits default values
-/

theorem serialisePlug_dst (flt : List Nat) (n pid : Nat) (pl : SPlug) :
    ∀ s ∈ serialisePlug flt n pid pl, stmtDstNode s = n ∧ stmtDstPlug s = pid := by
  intro s hs
  rw [serialisePlug] at hs
  rcases List.mem_append.mp hs with h | h
  · split at h
    · simp at h
    · simp at h
      subst h
      exact ⟨rfl, rfl⟩
  · cases hin : pl.input with
    | none =>
      rw [hin] at h
      simp [connStatements] at h
    | some q =>
      obtain ⟨sn, sp⟩ := q
      rw [hin, connStatements] at h
      split at h
      · simp at h
        subst h
        exact ⟨rfl, rfl⟩
      · simp at h

theorem filter_targets_serialisePlug (flt : List Nat) (n pid : Nat) (pl : SPlug) :
    (serialisePlug flt n pid pl).filter (targetsPlug n pid)
      = serialisePlug flt n pid pl := by
  apply List.filter_eq_self.mpr
  intro s hs
  obtain ⟨h1, h2⟩ := serialisePlug_dst flt n pid pl s hs
  simp [targetsPlug, h1, h2]

theorem filter_targets_serialisePlug_ne (flt : List Nat) (n pid n' pid' : Nat)
    (pl : SPlug) (hne : n' ≠ n ∨ pid' ≠ pid) :
    (serialisePlug flt n' pid' pl).filter (targetsPlug n pid) = [] := by
  apply List.filter_eq_nil_iff.mpr
  intro s hs
  obtain ⟨h1, h2⟩ := serialisePlug_dst flt n' pid' pl s hs
  simp only [targetsPlug, h1, h2, Bool.and_eq_true, decide_eq_true_eq, not_and]
  intro hn hp
  rcases hne with h | h
  · exact h hn
  · exact h hp

theorem filter_targets_serialiseNode_ne (flt : List Nat) (n pid : Nat)
    (nd : SNode) (hne : nd.id ≠ n) :
    (serialiseNode flt nd).filter (targetsPlug n pid) = [] := by
  apply List.filter_eq_nil_iff.mpr
  intro s hs
  rw [serialiseNode] at hs
  obtain ⟨e, he, hs2⟩ := List.mem_flatMap.mp hs
  obtain ⟨h1, _⟩ := serialisePlug_dst flt nd.id e.1 e.2 s hs2
  simp only [targetsPlug, h1, Bool.and_eq_true, decide_eq_true_eq, not_and]
  intro hn
  exact absurd hn hne

theorem filter_targets_flatMap_not_mem (flt : List Nat) (n pid : Nat)
    (plugs : List (Nat × SPlug)) (hpid : pid ∉ plugs.map Prod.fst) :
    (plugs.flatMap (fun e => serialisePlug flt n e.1 e.2)).filter
        (targetsPlug n pid) = [] := by
  apply List.filter_eq_nil_iff.mpr
  intro s hs
  obtain ⟨e, he, hs2⟩ := List.mem_flatMap.mp hs
  obtain ⟨h1, h2⟩ := serialisePlug_dst flt n e.1 e.2 s hs2
  simp only [targetsPlug, h1, h2, Bool.and_eq_true, decide_eq_true_eq, not_and]
  intro _ hp
  exact hpid (hp ▸ List.mem_map_of_mem Prod.fst he)

theorem filter_targets_flatMap (flt : List Nat) (n : Nat) :
    ∀ (plugs : List (Nat × SPlug)) (pid : Nat) (pl : SPlug),
      (plugs.map Prod.fst).Nodup → (pid, pl) ∈ plugs →
      (plugs.flatMap (fun e => serialisePlug flt n e.1 e.2)).filter
          (targetsPlug n pid)
        = serialisePlug flt n pid pl := by
  intro plugs
  induction plugs with
  | nil => intro pid pl _ hpl; cases hpl
  | cons e rest ih =>
    intro pid pl hnd hpl
    rw [List.map_cons, List.nodup_cons] at hnd
    rw [List.flatMap_cons, List.filter_append]
    rcases List.mem_cons.mp hpl with heq | hmem
    · rw [← heq]
      rw [filter_targets_serialisePlug]
      have hpid_not : pid ∉ rest.map Prod.fst := by
        have := hnd.1
        rw [← heq] at this
        exact this
      rw [filter_targets_flatMap_not_mem flt n pid rest hpid_not, List.append_nil]
    · have he1 : e.1 ≠ pid := by
        intro hcon
        exact hnd.1 (hcon ▸ List.mem_map_of_mem Prod.fst hmem)
      rw [filter_targets_serialisePlug_ne flt n pid n e.1 e.2 (Or.inr he1),
        List.nil_append]
      exact ih pid pl hnd.2 hmem

theorem serialiseNode_filter_char (flt : List Nat) (nd : SNode) (pid : Nat)
    (pl : SPlug) (hpids : (nd.plugs.map Prod.fst).Nodup)
    (hpl : (pid, pl) ∈ nd.plugs) :
    (serialiseNode flt nd).filter (targetsPlug nd.id pid)
      = serialisePlug flt nd.id pid pl := by
  rw [serialiseNode]
  exact filter_targets_flatMap flt nd.id nd.plugs pid pl hpids hpl

theorem filter_targets_serialise_not_mem (flt : List Nat) (n pid : Nat)
    (script : List SNode) (hn : n ∉ script.map SNode.id) :
    ((script.filter (fun nd => nd.id ∈ flt)).flatMap (serialiseNode flt)).filter
        (targetsPlug n pid) = [] := by
  apply List.filter_eq_nil_iff.mpr
  intro s hs
  obtain ⟨m, hm, hs2⟩ := List.mem_flatMap.mp hs
  have hm' : m ∈ script := List.mem_of_mem_filter hm
  rw [serialiseNode] at hs2
  obtain ⟨e, he, hs3⟩ := List.mem_flatMap.mp hs2
  obtain ⟨h1, _⟩ := serialisePlug_dst flt m.id e.1 e.2 s hs3
  simp only [targetsPlug, h1, Bool.and_eq_true, decide_eq_true_eq, not_and]
  intro hid _
  exact hn (hid ▸ List.mem_map_of_mem SNode.id hm')

theorem serialise_filter_char (script : List SNode) (flt : List Nat)
    (nd : SNode) (pid : Nat) (pl : SPlug)
    (hids : (script.map SNode.id).Nodup) (hmem : nd ∈ script)
    (hincl : nd.id ∈ flt) (hpids : (nd.plugs.map Prod.fst).Nodup)
    (hpl : (pid, pl) ∈ nd.plugs) :
    (serialise script flt).filter (targetsPlug nd.id pid)
      = serialisePlug flt nd.id pid pl := by
  rw [serialise]
  revert hids hmem
  induction script with
  | nil => intro _ hmem; cases hmem
  | cons m rest ih =>
    intro hids hmem
    rw [List.map_cons, List.nodup_cons] at hids
    rcases List.mem_cons.mp hmem with heq | hmem2
    · subst heq
      rw [List.filter_cons_of_pos (by simpa using hincl), List.flatMap_cons,
        List.filter_append,
        serialiseNode_filter_char flt nd pid pl hpids hpl,
        filter_targets_serialise_not_mem flt nd.id pid rest hids.1,
        List.append_nil]
    · have hmne : m.id ≠ nd.id := by
        intro hcon
        exact hids.1 (hcon ▸ List.mem_map_of_mem SNode.id hmem2)
      by_cases hin : m.id ∈ flt
      · rw [List.filter_cons_of_pos (by simpa using hin), List.flatMap_cons,
          List.filter_append,
          filter_targets_serialiseNode_ne flt nd.id pid m hmne,
          List.nil_append]
        exact ih hids.2 hmem2
      · rw [List.filter_cons_of_neg (by simpa using hin)]
        exact ih hids.2 hmem2

theorem isSetValueFor_and_targets (n pid : Nat) (s : Statement) :
    isSetValueFor n pid s = (isSetValueFor n pid s && targetsPlug n pid s) := by
  cases s with
  | setVal a b v =>
    simp only [isSetValueFor, targetsPlug, stmtDstNode, stmtDstPlug]
    by_cases h1 : a = n <;> by_cases h2 : b = pid <;> simp [h1, h2]
  | connect a b c d => simp [isSetValueFor]

theorem filter_isSetValueFor_eq (l : List Statement) (n pid : Nat) :
    l.filter (isSetValueFor n pid)
      = (l.filter (targetsPlug n pid)).filter (isSetValueFor n pid) := by
  rw [List.filter_filter]
  exact List.filter_congr (fun s _ => isSetValueFor_and_targets n pid s)

theorem serialisePlug_setVal_length (flt : List Nat) (n pid : Nat) (pl : SPlug) :
    ((serialisePlug flt n pid pl).filter (isSetValueFor n pid)).length
      = if pl.storedValue = pl.defaultValue then 0 else 1 := by
  obtain ⟨sv, dv, inp⟩ := pl
  rw [serialisePlug]
  cases inp with
  | none => by_cases hd : sv = dv <;> simp [hd, isSetValueFor, connStatements]
  | some sp =>
    obtain ⟨sn, spl⟩ := sp
    by_cases hf : sn ∈ flt <;> by_cases hd : sv = dv <;>
      simp [hf, hd, isSetValueFor, connStatements]

/-- C7: for every plug of a serialised hierarchy (with well-formed unique
node and plug identifiers), the script contains no value-setting statement
for the plug when its current value equals its type default — whether that
default is falsy or truthy — and exactly one value-restoring statement when
it differs. -/
theorem c7_serialisation_defaults (script : List SNode) (flt : List Nat)
    (nd : SNode) (pid : Nat) (pl : SPlug)
    (hids : (script.map SNode.id).Nodup) (hmem : nd ∈ script)
    (hincl : nd.id ∈ flt) (hpids : (nd.plugs.map Prod.fst).Nodup)
    (hpl : (pid, pl) ∈ nd.plugs) :
    ((serialise script flt).filter (isSetValueFor nd.id pid)).length
      = if pl.storedValue = pl.defaultValue then 0 else 1 := by
  rw [filter_isSetValueFor_eq,
    serialise_filter_char script flt nd pid pl hids hmem hincl hpids hpl,
    serialisePlug_setVal_length]

/-- A boolean plug whose type default is `true`, currently holding `false`. -/
def boolPlugW : SPlug :=
  { storedValue := Val.bool false, defaultValue := Val.bool true,
    input := none }

/-- A boolean plug whose type default is `true`, left at its default. -/
def boolDefaultPlugW : SPlug :=
  { storedValue := Val.bool true, defaultValue := Val.bool true,
    input := none }

/-- A node with the two boolean plugs: plug `0` differs from its (truthy)
default, plug `1` sits at it. -/
def boolNodeW : SNode :=
  { id := 1, plugs := [(0, boolPlugW), (1, boolDefaultPlugW)] }

/-- Witness for C7: serialising the boolean node emits exactly one
value-restoring statement for the plug that differs from its truthy
default (and, applying the theorem to plug `1`, none for the plug at its
default). -/
theorem c7_serialisation_defaults_witness :
    ([boolNodeW].map SNode.id).Nodup ∧ boolNodeW ∈ [boolNodeW] ∧
    boolNodeW.id ∈ [1] ∧ (boolNodeW.plugs.map Prod.fst).Nodup ∧
    (0, boolPlugW) ∈ boolNodeW.plugs ∧ (1, boolDefaultPlugW) ∈ boolNodeW.plugs ∧
    (((serialise [boolNodeW] [1]).filter (isSetValueFor boolNodeW.id 0)).length
      = if boolPlugW.storedValue = boolPlugW.defaultValue then 0 else 1) ∧
    (((serialise [boolNodeW] [1]).filter (isSetValueFor boolNodeW.id 1)).length
      = if boolDefaultPlugW.storedValue = boolDefaultPlugW.defaultValue
          then 0 else 1) :=
  ⟨by decide, by decide, by decide, by decide, by decide, by decide,
    c7_serialisation_defaults [boolNodeW] [1] boolNodeW 0 boolPlugW
      (by decide) (by decide) (by decide) (by decide) (by decide),
    c7_serialisation_defaults [boolNodeW] [1] boolNodeW 1 boolDefaultPlugW
      (by decide) (by decide) (by decide) (by decide) (by decide)⟩

/-!
## C8: replay of a filtered script drops excluded connections
-/

theorem findSPlug_map_key (f : SPlug → SPlug) (pid' : Nat) :
    ∀ (plugs : List (Nat × SPlug)) (pid : Nat),
    findSPlug (plugs.map (fun e => if e.1 = pid' then (e.1, f e.2) else e)) pid
      = if pid = pid' then (findSPlug plugs pid).map f
        else findSPlug plugs pid := by
  intro plugs
  induction plugs with
  | nil =>
    intro pid
    by_cases h : pid = pid' <;> simp [findSPlug, h]
  | cons e rest ih =>
    intro pid
    by_cases he : e.1 = pid'
    · subst he
      by_cases hp : e.1 = pid
      · subst hp
        simp [findSPlug]
      · have hp' : ¬ pid = e.1 := fun h => hp h.symm
        simp [findSPlug, hp, hp', ih]
    · by_cases hp : e.1 = pid
      · subst hp
        have hp' : ¬ e.1 = pid' := he
        simp [findSPlug, he, hp']
      · simp [findSPlug, he, hp, ih]

theorem plugEffect_setVal (a b : Nat) (v : Val) :
    plugEffect (Statement.setVal a b v)
      = fun pl => { pl with storedValue := v } := rfl

theorem plugEffect_connect (a b c d : Nat) :
    plugEffect (Statement.connect a b c d)
      = fun pl => { pl with input := some (c, d) } := rfl

theorem updateNodePlugs_id (pid : Nat) (f : SPlug → SPlug) (nd : SNode) :
    (updateNodePlugs pid f nd).id = nd.id := rfl

theorem getPlug_updatePlug :
    ∀ (nodes : List SNode) (n' pid' n pid : Nat) (f : SPlug → SPlug),
    getPlug (updatePlug nodes n' pid' f) n pid
      = if n = n' ∧ pid = pid' then (getPlug nodes n pid).map f
        else getPlug nodes n pid := by
  intro nodes
  induction nodes with
  | nil =>
    intro n' pid' n pid f
    by_cases h : n = n' ∧ pid = pid' <;> simp [getPlug, updatePlug, h]
  | cons nd rest ih =>
    intro n' pid' n pid f
    rw [updatePlug, List.map_cons]
    by_cases hid : nd.id = n
    · by_cases hn' : nd.id = n'
      · rw [if_pos hn']
        unfold getPlug
        rw [List.find?_cons_of_pos _ (by simp [updateNodePlugs_id, hid]),
          List.find?_cons_of_pos _ (by simp [hid])]
        simp only [updateNodePlugs]
        rw [findSPlug_map_key]
        have hnn' : n = n' := hid ▸ hn'
        by_cases hp : pid = pid' <;> simp [hp, hnn']
      · rw [if_neg hn']
        unfold getPlug
        rw [List.find?_cons_of_pos _ (by simp [hid]),
          List.find?_cons_of_pos _ (by simp [hid])]
        have hnn' : ¬(n = n') := fun h => hn' (hid.trans h)
        simp [hnn']
    · have hhead : (if nd.id = n' then updateNodePlugs pid' f nd else nd).id
          = nd.id := by
        by_cases h : nd.id = n' <;> simp [h, updateNodePlugs_id]
      unfold getPlug
      rw [List.find?_cons_of_neg _ (by simp [hhead, hid]),
        List.find?_cons_of_neg _ (by simp [hid])]
      have hrec := ih n' pid' n pid f
      unfold getPlug updatePlug at hrec
      exact hrec

theorem getPlug_applyStatement (nodes : List SNode) (s : Statement)
    (n pid : Nat) :
    getPlug (applyStatement nodes s) n pid
      = if targetsPlug n pid s = true
          then (getPlug nodes n pid).map (plugEffect s)
        else getPlug nodes n pid := by
  cases s with
  | setVal a b v =>
    rw [applyStatement, getPlug_updatePlug, plugEffect_setVal]
    by_cases h1 : n = a
    · by_cases h2 : pid = b
      · simp [targetsPlug, stmtDstNode, stmtDstPlug, h1, h2]
      · have h2' : ¬(b = pid) := fun h => h2 h.symm
        simp [targetsPlug, stmtDstNode, stmtDstPlug, h1, h2, h2']
    · have h1' : ¬(a = n) := fun h => h1 h.symm
      simp [targetsPlug, stmtDstNode, stmtDstPlug, h1, h1']
  | connect a b c d =>
    rw [applyStatement, getPlug_updatePlug, plugEffect_connect]
    by_cases h1 : n = a
    · by_cases h2 : pid = b
      · simp [targetsPlug, stmtDstNode, stmtDstPlug, h1, h2]
      · have h2' : ¬(b = pid) := fun h => h2 h.symm
        simp [targetsPlug, stmtDstNode, stmtDstPlug, h1, h2, h2']
    · have h1' : ¬(a = n) := fun h => h1 h.symm
      simp [targetsPlug, stmtDstNode, stmtDstPlug, h1, h1']

theorem getPlug_foldl (n pid : Nat) :
    ∀ (stmts : List Statement) (nodes : List SNode),
    getPlug (stmts.foldl applyStatement nodes) n pid
      = (stmts.filter (targetsPlug n pid)).foldl
          (fun o s => o.map (plugEffect s)) (getPlug nodes n pid) := by
  intro stmts
  induction stmts with
  | nil => intro nodes; rfl
  | cons s rest ih =>
    intro nodes
    rw [List.foldl_cons, ih]
    by_cases ht : targetsPlug n pid s = true
    · rw [List.filter_cons_of_pos ht, List.foldl_cons,
        getPlug_applyStatement, if_pos ht]
    · rw [List.filter_cons_of_neg ht, getPlug_applyStatement, if_neg ht]

theorem find?_fresh_filter (flt : List Nat) (nd : SNode) :
    ∀ (script : List SNode), (script.map SNode.id).Nodup → nd ∈ script →
    nd.id ∈ flt →
    ((script.filter (fun m => m.id ∈ flt)).map freshNode).find?
        (fun m => decide (m.id = nd.id)) = some (freshNode nd) := by
  intro script
  induction script with
  | nil => intro _ hmem _; cases hmem
  | cons m rest ih =>
    intro hids hmem hincl
    rw [List.map_cons, List.nodup_cons] at hids
    rcases List.mem_cons.mp hmem with heq | hmem2
    · subst heq
      rw [List.filter_cons_of_pos (by simpa using hincl), List.map_cons,
        List.find?_cons_of_pos _ (by simp [freshNode])]
    · have hmne : m.id ≠ nd.id := fun hcon =>
        hids.1 (hcon ▸ List.mem_map_of_mem SNode.id hmem2)
      by_cases hin : m.id ∈ flt
      · rw [List.filter_cons_of_pos (by simpa using hin), List.map_cons,
          List.find?_cons_of_neg _ (by simp [freshNode, hmne])]
        exact ih hids.2 hmem2 hincl
      · rw [List.filter_cons_of_neg (by simpa using hin)]
        exact ih hids.2 hmem2 hincl

theorem findSPlug_fresh (pid : Nat) (pl : SPlug) :
    ∀ (plugs : List (Nat × SPlug)), (plugs.map Prod.fst).Nodup →
    (pid, pl) ∈ plugs →
    findSPlug (plugs.map (fun e => (e.1, freshPlug e.2))) pid
      = some (freshPlug pl) := by
  intro plugs
  induction plugs with
  | nil => intro _ hpl; cases hpl
  | cons e rest ih =>
    intro hpids hpl
    rw [List.map_cons, List.nodup_cons] at hpids
    rw [List.map_cons]
    rcases List.mem_cons.mp hpl with heq | hmem
    · rw [← heq]
      simp [findSPlug]
    · have hne : e.1 ≠ pid := fun hcon =>
        hpids.1 (hcon ▸ List.mem_map_of_mem Prod.fst hmem)
      rw [findSPlug, if_neg (by simpa using hne)]
      exact ih hpids.2 hmem

theorem getPlug_fresh (script : List SNode) (flt : List Nat) (nd : SNode)
    (pid : Nat) (pl : SPlug)
    (hids : (script.map SNode.id).Nodup) (hmem : nd ∈ script)
    (hincl : nd.id ∈ flt) (hpids : (nd.plugs.map Prod.fst).Nodup)
    (hpl : (pid, pl) ∈ nd.plugs) :
    getPlug ((script.filter (fun m => m.id ∈ flt)).map freshNode) nd.id pid
      = some (freshPlug pl) := by
  unfold getPlug
  rw [find?_fresh_filter flt nd script hids hmem hincl]
  simp only []
  rw [freshNode]
  exact findSPlug_fresh pid pl nd.plugs hpids hpl

/-- C8: for a plug whose input connection comes from a node excluded by the
serialisation filter, replaying the serialised script into a fresh
hierarchy leaves that plug with no input connection and with its stored
literal value (which is its type default when no value was ever explicitly
set), not the value received through the connection. -/
theorem c8_replay_drops_excluded (script : List SNode) (flt : List Nat)
    (nd : SNode) (pid sn sp : Nat) (pl : SPlug)
    (hids : (script.map SNode.id).Nodup) (hmem : nd ∈ script)
    (hincl : nd.id ∈ flt) (hpids : (nd.plugs.map Prod.fst).Nodup)
    (hpl : (pid, pl) ∈ nd.plugs)
    (hinput : pl.input = some (sn, sp)) (hexcl : sn ∉ flt) :
    getPlug (executeScript script flt) nd.id pid
      = some { storedValue := pl.storedValue,
               defaultValue := pl.defaultValue, input := none } := by
  rw [executeScript, getPlug_foldl,
    serialise_filter_char script flt nd pid pl hids hmem hincl hpids hpl,
    getPlug_fresh script flt nd pid pl hids hmem hincl hpids hpl]
  rw [serialisePlug, hinput, connStatements]
  rw [if_neg hexcl]
  by_cases hd : pl.storedValue = pl.defaultValue
  · rw [if_pos hd]
    simp [freshPlug, hd]
  · rw [if_neg hd]
    simp [freshPlug, plugEffect]

/-- The upstream node of the copy-paste fixture (`add1`): its output plug
`0` holds a non-default value. -/
def add1NodeW : SNode :=
  { id := 1,
    plugs := [(0, { storedValue := Val.int 5, defaultValue := Val.int 0,
                    input := none })] }

/-- The `op1` plug of `add2`: at its default, connected to `add1`'s
output. -/
def add2op1W : SPlug :=
  { storedValue := Val.int 0, defaultValue := Val.int 0,
    input := some (1, 0) }

/-- The downstream node of the copy-paste fixture (`add2`): plug `0` takes
its input from the upstream node, plug `1` sits at its default. -/
def add2NodeW : SNode :=
  { id := 2,
    plugs := [(0, add2op1W),
              (1, { storedValue := Val.int 0, defaultValue := Val.int 0,
                    input := none })] }

/-- Witness for C8: serialising only `add2` and replaying drops the
connection from the excluded `add1`, leaving `op1` at its stored literal
value with no input. -/
theorem c8_replay_drops_excluded_witness :
    ([add1NodeW, add2NodeW].map SNode.id).Nodup ∧
    add2NodeW ∈ [add1NodeW, add2NodeW] ∧ add2NodeW.id ∈ [2] ∧
    (add2NodeW.plugs.map Prod.fst).Nodup ∧ (0, add2op1W) ∈ add2NodeW.plugs ∧
    add2op1W.input = some (1, 0) ∧ (1 : Nat) ∉ ([2] : List Nat) ∧
    getPlug (executeScript [add1NodeW, add2NodeW] [2]) add2NodeW.id 0
      = some { storedValue := add2op1W.storedValue,
               defaultValue := add2op1W.defaultValue, input := none } :=
  ⟨by decide, by decide, by decide, by decide, by decide, by decide, by decide,
    c8_replay_drops_excluded [add1NodeW, add2NodeW] [2] add2NodeW 0 1 0
      add2op1W (by decide) (by decide) (by decide) (by decide) (by decide)
      (by decide) (by decide)⟩
